import Mathlib

/-!
Shallow embedding of the native AIO engine in
`src/main/c/org_apache_activemq_artemis_nativo_jlibaio_LibaioContext.c`.

The embedding follows the C source function by function:
* `artemis_io_getevents` (lines 96-147): the user-space completion ring
  fast path with its fallback to the `io_getevents` syscall;
* `getIOCB` / `putIOCB` (lines 400-438): the circular descriptor pool;
* `submit` (lines 440-455): submission with its failure undo sequence;
* `blockedPoll` (lines 719-821): the continuous poll loop;
* `poll` (lines 823-866): the bounded single-shot drain;
* `newAlignedBuffer` (lines 868-889): aligned allocation plus `memset`.

C `unsigned` / `int` arithmetic is modelled over `Nat` / `Int` with explicit
reductions modulo `2^32` where the C types make overflow possible.
-/

namespace ArtemisNative

/-! ### C machine-integer model -/

/-- `2^32`, the modulus of C `unsigned int` arithmetic. -/
def UINT32_MOD : Nat := 4294967296

/-- `2^31`, the first value that no longer fits in a C `int`. -/
def INT32_HALF : Nat := 2147483648

/-- Conversion of an integer value to C `unsigned int` (reduce mod `2^32`). -/
def toUint32 (i : Int) : Nat := (i % (UINT32_MOD : Int)).toNat

/-- Conversion of an unsigned value to C `int` (two's-complement wrap). -/
def toInt32 (v : Nat) : Int :=
  if v % UINT32_MOD < INT32_HALF then ((v % UINT32_MOD : Nat) : Int)
  else ((v % UINT32_MOD : Nat) : Int) - (UINT32_MOD : Int)

/-! ### The kernel completion ring (`struct aio_ring`, lines 68-93) -/

/-- `AIO_RING_MAGIC` (line 68). -/
def AIO_RING_MAGIC : Nat := 0xa10a10a1

/-- `AIO_RING_INCOMPAT_FEATURES` (line 69). -/
def AIO_RING_INCOMPAT_FEATURES : Nat := 0

/-- `struct timespec`: only the zero test on `tv_sec`/`tv_nsec` matters here. -/
structure Timespec where
  tv_sec : Int
  tv_nsec : Int
deriving DecidableEq

/-- The `timeout && timeout->tv_sec == 0 && timeout->tv_nsec == 0` test
(line 114); a null `timeout` pointer is `none`. -/
def timeoutIsZero : Option Timespec → Bool
  | some t => t.tv_sec == 0 && t.tv_nsec == 0
  | none => false

/-- `struct aio_ring` (lines 72-85): the fields the fast path reads, with the
event slots as a map from slot index to event payload `α`. -/
structure AioRing (α : Type) where
  nr : Nat
  head : Nat
  tail : Nat
  magic : Nat
  incompat_features : Nat
  io_events : Nat → α

/-- `has_usable_ring` (lines 87-89). -/
def has_usable_ring {α} (ring : AioRing α) : Bool :=
  ring.magic == AIO_RING_MAGIC && ring.incompat_features == AIO_RING_INCOMPAT_FEATURES

/-- Lines 106-110: `int available = tail - head; if (available < 0) available += ring_nr;`.
`tail - head` is C unsigned subtraction, converted to `int` by assignment;
`available += ring_nr` converts through `unsigned` again. -/
def ringAvailable {α} (ring : AioRing α) : Int :=
  let available0 := toInt32 (toUint32 ((ring.tail : Int) - (ring.head : Int)))
  if available0 < 0 then toInt32 (toUint32 available0 + ring.nr) else available0

/-- Outcome of `artemis_io_getevents`: either the fast path produced a return
value, a batch of copied events and a (published) new head, or control reached
the `io_getevents` syscall at line 142. -/
inductive GetEventsResult (α : Type) where
  | fast (ret : Int) (events : List α) (newHead : Nat)
  | fallback
deriving DecidableEq

/-- The copy loop of lines 124-131: read `ring_nr` slots starting at `head`,
advancing `head` with `% ring_nr` only when `needMod` was set. Returns the
copied events and the final `head`. -/
def drainLoop {α} (ev : Nat → α) (ring_nr : Nat) (needMod : Bool) :
    Nat → Nat → List α × Nat
  | 0, head => ([], head)
  | Nat.succ n, head =>
    let e := ev head
    let head2 := if needMod then (head + 1) % ring_nr else head + 1
    let r := drainLoop ev ring_nr needMod n head2
    (e :: r.1, r.2)

/-- `artemis_io_getevents` (lines 96-147). `min_nr` and `max` are C `long`
(64-bit) parameters, modelled as unbounded `Int`; the conversions back to
`int` locals are explicit. -/
def artemis_io_getevents {α} (ring : AioRing α) (min_nr max : Int)
    (timeout : Option Timespec) : GetEventsResult α :=
  if has_usable_ring ring then
    let ring_nr := ring.nr
    let head := ring.head
    let available := ringAvailable ring
    if min_nr ≤ available ∨ timeoutIsZero timeout = true then
      if available = 0 then
        GetEventsResult.fast 0 [] head
      else
        let available_nr : Int := toInt32 (toUint32 (if available < max then available else max))
        let needMod : Bool := decide (ring_nr ≤ (head + toUint32 available_nr) % UINT32_MOD)
        let d := drainLoop ring.io_events ring_nr needMod available_nr.toNat head
        GetEventsResult.fast available_nr d.1 d.2
    else
      GetEventsResult.fallback
  else
    GetEventsResult.fallback

/-! ### Descriptor pool (`struct io_control`, `getIOCB`, `putIOCB`) -/

/-- The `iocb->data` slot: a null pointer, the `(void *) -1` shutdown
sentinel (line 609), or a JNI global reference to a completion handle,
identified by a number. -/
inductive UserData where
  | null
  | sentinel
  | handle (h : Nat)
deriving DecidableEq

/-- The part of `struct iocb` the engine inspects: the target file
descriptor `aio_fildes` and the user-data slot. -/
structure Iocb where
  aio_fildes : Int
  data : UserData
deriving DecidableEq

/-- The pool bookkeeping of `struct io_control` (lines 44-63): the slot
array `iocb`, its capacity `queueSize`, the circular cursors `iocbPut` /
`iocbGet` and the `used` counter (a C `int`, hence modelled as `Int` so
that "goes negative" is expressible). -/
structure IoControl where
  iocb : List Iocb
  queueSize : Nat
  iocbPut : Nat
  iocbGet : Nat
  used : Int
deriving DecidableEq

/-- `getIOCB` (lines 400-420): under the pool lock, acquire a descriptor,
or return null when `used == queueSize`. Out-of-range slot reads (impossible
under the pool invariant) default to a dummy descriptor. -/
def getIOCB (control : IoControl) : Option Iocb × IoControl :=
  if control.used < (control.queueSize : Int) then
    let iocb := control.iocb.getD control.iocbGet { aio_fildes := 0, data := UserData.null }
    let g := control.iocbGet + 1
    (some iocb,
      { control with
          used := control.used + 1
          iocbGet := if control.queueSize ≤ g then 0 else g })
  else
    (none, control)

/-- `putIOCB` (lines 425-438): under the pool lock, decrement `used`
(unconditionally, as the C does) and store the descriptor at `iocbPut`. -/
def putIOCB (control : IoControl) (iocbBack : Iocb) : IoControl :=
  let p := control.iocbPut + 1
  { control with
      used := control.used - 1
      iocb := control.iocb.set control.iocbPut iocbBack
      iocbPut := if control.queueSize ≤ p then 0 else p }

/-! ### Pool traces: sequences of acquires and releases -/

/-- One pool operation: an acquire (`getIOCB`) or a release (`putIOCB`) of a
given descriptor. -/
inductive PoolOp where
  | acquire
  | release (d : Iocb)
deriving DecidableEq

/-- One trace step. The second component counts descriptors currently
outstanding (successfully acquired and not yet released); the C callers
only ever pass `putIOCB` a descriptor they previously got from `getIOCB`. -/
def poolStep (s : IoControl × Nat) (op : PoolOp) : IoControl × Nat :=
  match op with
  | PoolOp.acquire =>
    let r := getIOCB s.1
    match r.1 with
    | some _ => (r.2, s.2 + 1)
    | none => (r.2, s.2)
  | PoolOp.release d => (putIOCB s.1 d, s.2 - 1)

/-- Run a trace of pool operations. -/
def runPool (c : IoControl) (out : Nat) (ops : List PoolOp) : IoControl × Nat :=
  ops.foldl poolStep (c, out)

/-- A trace is well formed when every release happens while at least one
descriptor is outstanding — the usage discipline of every `putIOCB` call
site in the C source. -/
def wfTrace : IoControl → Nat → List PoolOp → Bool
  | _, _, [] => true
  | c, out, op :: rest =>
    (match op with
     | PoolOp.acquire => true
     | PoolOp.release _ => decide (0 < out)) &&
    wfTrace (poolStep (c, out) op).1 (poolStep (c, out) op).2 rest

/-! ### Submission (`submit`, lines 440-455) -/

/-- A completion-handle method invocation performed through JNI:
`SubmitInfo.onError(code, message)` or the `done` notification
(`LibaioContext.done(callback)` from `blockedPoll`, reaching
`SubmitInfo.done()`), on the object stored in the user-data slot. -/
inductive HandleCall where
  | onError (target : UserData) (code : Int)
  | done (target : UserData)
deriving DecidableEq

/-- Whether a call is an `onError` invocation. -/
def HandleCall.isOnError : HandleCall → Bool
  | HandleCall.onError _ _ => true
  | HandleCall.done _ => false

/-- Whether a call is a `done` notification. -/
def HandleCall.isDone : HandleCall → Bool
  | HandleCall.onError _ _ => false
  | HandleCall.done _ => true

/-- Observable effects of `submit`: its return value (1 accepted, 0
rejected), the global reference it deleted (if any), the pool state after
it, the errno carried by the `IOException` it threw (if any), and the
handle methods it invoked. -/
structure SubmitEffects where
  ret : Int
  deletedRef : Option UserData
  control : IoControl
  thrownErrno : Option Int
  calls : List HandleCall
deriving DecidableEq

/-- `submit` (lines 440-455). `ioSubmitResult` is the result of the external
`io_submit` call; on a negative result the C deletes the stored global
reference when `iocb->data` is neither null nor `(void *) -1`, returns the
descriptor with `putIOCB`, and throws an `IOException` built from
`-result`. It never invokes a handle method. -/
def submit (control : IoControl) (iocb : Iocb) (ioSubmitResult : Int) : SubmitEffects :=
  if ioSubmitResult < 0 then
    { ret := 0
      deletedRef :=
        if iocb.data ≠ UserData.null ∧ iocb.data ≠ UserData.sentinel then some iocb.data
        else none
      control := putIOCB control iocb
      thrownErrno := some (-ioSubmitResult)
      calls := [] }
  else
    { ret := 1
      deletedRef := none
      control := control
      thrownErrno := none
      calls := [] }

/-! ### Harvest dispatch: `blockedPoll` (lines 719-821) and `poll` (lines 823-866) -/

/-- Linux `EINTR`. -/
def EINTR : Int := 4

/-- One harvested `struct io_event`: the originating descriptor (`obj`)
and the signed result (`res`, truncated to `int` by both dispatch loops). -/
structure IoEvent where
  obj : Iocb
  res : Int
deriving DecidableEq

/-- The handle invocations lines 787-814 of `blockedPoll` perform for one
non-sentinel event: `onError` on a negative result when the user-data slot
is non-null (this loop tests only `data != NULL`), then the `done`
notification when the slot is non-null. -/
def eventCalls (ev : IoEvent) : List HandleCall :=
  let iocbp := ev.obj
  (if ev.res < 0 ∧ iocbp.data ≠ UserData.null
   then [HandleCall.onError iocbp.data (-ev.res)] else [])
  ++ (if iocbp.data ≠ UserData.null then [HandleCall.done iocbp.data] else [])

/-- Result of one pass of the `for` loop of lines 762-816 over a batch of
events: the handle calls made, the descriptors released with `putIOCB` in
order, the file descriptors passed to `fdatasync`, the `running` flag after
the pass, and the final `lastFile` value. -/
structure BatchResult where
  calls : List HandleCall
  released : List Iocb
  flushed : List Int
  running : Bool
  lastFile : Int
deriving DecidableEq

/-- The `for` loop of `blockedPoll` (lines 762-816): a completion whose
`aio_fildes` equals the dumb-write descriptor is the shutdown sentinel — it
is released and the loop breaks with `running = 0`; otherwise an optional
`fdatasync` fires on a file-descriptor change, then the event is dispatched
via `eventCalls` around the `putIOCB`. -/
def processBatch (dumbFd : Int) (useFdatasync : Bool) :
    List IoEvent → Int → BatchResult
  | [], lastFile =>
    { calls := [], released := [], flushed := [], running := true, lastFile := lastFile }
  | ev :: rest, lastFile =>
    let iocbp := ev.obj
    if iocbp.aio_fildes = dumbFd then
      { calls := [], released := [iocbp], flushed := [], running := false, lastFile := lastFile }
    else
      let doFlush := useFdatasync && lastFile != iocbp.aio_fildes
      let lastFile2 := if doFlush then iocbp.aio_fildes else lastFile
      let r := processBatch dumbFd useFdatasync rest lastFile2
      { calls := eventCalls ev ++ r.calls
        released := iocbp :: r.released
        flushed := (if doFlush then [iocbp.aio_fildes] else []) ++ r.flushed
        running := r.running
        lastFile := r.lastFile }

/-- Observable outcome of the `while (running)` loop of `blockedPoll`:
handle calls, descriptors released, the errno of a thrown `IOException`
(if any), and whether the loop exited (rather than consuming the whole
supplied schedule of harvest results while still running). -/
structure PollLoopOutcome where
  calls : List HandleCall
  released : List Iocb
  thrownErrno : Option Int
  finished : Bool
deriving DecidableEq

/-- The `while (running)` loop of `blockedPoll` (lines 739-817), driven by a
schedule of harvest results: each element is the `artemis_io_getevents`
return value paired with the events it deposited in the buffer. A `-EINTR`
result is retried (`continue`, line 747); any other negative result throws
and breaks; otherwise the batch is dispatched, `lastFile` having been reset
to `-1` (line 760). -/
def blockedPollLoop (dumbFd : Int) (useFdatasync : Bool) :
    List (Int × List IoEvent) → PollLoopOutcome
  | [] => { calls := [], released := [], thrownErrno := none, finished := false }
  | (result, evs) :: rest =>
    if result = -EINTR then
      blockedPollLoop dumbFd useFdatasync rest
    else if result < 0 then
      { calls := [], released := [], thrownErrno := some (-result), finished := true }
    else
      let b := processBatch dumbFd useFdatasync (evs.take result.toNat) (-1)
      if b.running then
        let r := blockedPollLoop dumbFd useFdatasync rest
        { calls := b.calls ++ r.calls
          released := b.released ++ r.released
          thrownErrno := r.thrownErrno
          finished := r.finished }
      else
        { calls := b.calls, released := b.released, thrownErrno := none, finished := true }

/-- Observable outcome of the bounded `poll`: the returned count, the
`(index, value)` pairs written into the caller's `callbacks` array, the
handle calls made, and the descriptors released. -/
structure BoundedPollResult where
  retVal : Int
  writes : List (Nat × UserData)
  calls : List HandleCall
  released : List Iocb
deriving DecidableEq

/-- The `for` loop of `poll` (lines 835-863), with `i` the running array
index: `onError` fires for a negative result when the user-data slot is
neither null nor the sentinel; under the same test the slot value is
written at index `i` of the `callbacks` array; `putIOCB` runs for every
event. `poll` never sends the `done` notification. -/
def pollEventsLoop : List IoEvent → Nat → List (Nat × UserData) × List HandleCall × List Iocb
  | [], _ => ([], [], [])
  | ev :: rest, i =>
    let iocbp := ev.obj
    let deliverable := iocbp.data ≠ UserData.null ∧ iocbp.data ≠ UserData.sentinel
    let errCalls :=
      if ev.res < 0 ∧ deliverable then [HandleCall.onError iocbp.data (-ev.res)] else []
    let writes := if deliverable then [(i, iocbp.data)] else []
    let r := pollEventsLoop rest (i + 1)
    (writes ++ r.1, errCalls ++ r.2.1, iocbp :: r.2.2)

/-- `poll` (lines 823-866), driven by one harvest result: `retVal` is the
raw `artemis_io_getevents` return value — negative results included — and
the loop runs over the first `result` deposited events. -/
def poll (harvest : Int × List IoEvent) : BoundedPollResult :=
  let result := harvest.1
  let evs := harvest.2.take result.toNat
  let wcr := pollEventsLoop evs 0
  { retVal := result, writes := wcr.1, calls := wcr.2.1, released := wcr.2.2 }

/-! ### `newAlignedBuffer` (lines 868-889) -/

/-- `memset(buffer, v, n)` on a byte list (the caller guarantees
`n ≤ buf.length`). -/
def memsetBytes (buf : List Nat) (v : Nat) (n : Nat) : List Nat :=
  List.replicate n v ++ buf.drop n

/-- `newAlignedBuffer` (lines 868-889): reject a size that is not a
multiple of the alignment, then `posix_memalign` — whose outcome is the
`alloc` parameter, `some raw` being the uninitialized allocation — then
`memset(buffer, 0, size)`. -/
def newAlignedBuffer (size alignment : Nat) (alloc : Option (List Nat)) :
    Option (List Nat) :=
  if size % alignment ≠ 0 then none
  else
    match alloc with
    | none => none
    | some raw => some (memsetBytes raw 0 size)

/-! ### Arithmetic helper lemmas for the fast path -/

theorem toUint32_ofNat (v : Nat) (h : v < UINT32_MOD) : toUint32 (v : Int) = v := by
  unfold toUint32 UINT32_MOD at *
  omega

theorem toInt32_small (v : Nat) (h : v < INT32_HALF) : toInt32 v = (v : Int) := by
  unfold toInt32 UINT32_MOD INT32_HALF at *
  omega

theorem toInt32_wrap (v : Nat) (h1 : UINT32_MOD ≤ v) (h2 : v < UINT32_MOD + INT32_HALF) :
    toInt32 v = ((v - UINT32_MOD : Nat) : Int) := by
  unfold toInt32 UINT32_MOD INT32_HALF at *
  split_ifs <;> omega

/-- Lines 106-110 compute exactly `(tail - head) mod capacity` whenever the
ring state is well formed (`head`, `tail` below a capacity that fits in a
C `int`). -/
theorem ringAvailable_eq {α} (ring : AioRing α)
    (hh : ring.head < ring.nr) (ht : ring.tail < ring.nr)
    (hN : ring.nr < INT32_HALF) :
    ringAvailable ring = (((ring.nr + ring.tail - ring.head) % ring.nr : Nat) : Int) := by
  have h1 : (ring.nr + ring.tail - ring.head) % ring.nr
      = if ring.head ≤ ring.tail then ring.tail - ring.head
        else ring.nr + ring.tail - ring.head := by
    split_ifs with hcase
    · have he : ring.nr + ring.tail - ring.head = ring.nr + (ring.tail - ring.head) := by
        omega
      rw [he, Nat.add_mod_left, Nat.mod_eq_of_lt (by omega)]
    · exact Nat.mod_eq_of_lt (by omega)
  rw [h1]
  have hN2 : ring.nr < 2147483648 := hN
  rcases le_or_lt ring.head ring.tail with hcase | hcase
  · have e1 : toUint32 ((ring.tail : Int) - ring.head) = ring.tail - ring.head := by
      unfold toUint32 UINT32_MOD
      omega
    have e2 : toInt32 (ring.tail - ring.head) = ((ring.tail - ring.head : Nat) : Int) :=
      toInt32_small _ (by unfold INT32_HALF; omega)
    simp only [ringAvailable, e1, e2]
    rw [if_neg (by omega), if_pos hcase]
  · have e1 : toUint32 ((ring.tail : Int) - ring.head)
        = 4294967296 - (ring.head - ring.tail) := by
      unfold toUint32 UINT32_MOD
      omega
    have e2 : toInt32 (4294967296 - (ring.head - ring.tail))
        = (ring.tail : Int) - ring.head := by
      unfold toInt32 UINT32_MOD INT32_HALF
      split_ifs <;> omega
    simp only [ringAvailable, e1, e2]
    rw [if_pos (by omega : (ring.tail : Int) - (ring.head : Int) < 0)]
    have e3 : 4294967296 - (ring.head - ring.tail) + ring.nr
        = 4294967296 + (ring.nr + ring.tail - ring.head) := by omega
    rw [e3]
    have e4 : toInt32 (4294967296 + (ring.nr + ring.tail - ring.head))
        = ((ring.nr + ring.tail - ring.head : Nat) : Int) := by
      unfold toInt32 UINT32_MOD INT32_HALF
      split_ifs <;> omega
    rw [e4, if_neg (by omega)]

/-- The available count is nonnegative and below the ring capacity. -/
theorem ringAvailable_bounds {α} (ring : AioRing α)
    (hh : ring.head < ring.nr) (ht : ring.tail < ring.nr)
    (hn : 0 < ring.nr) (hN : ring.nr < INT32_HALF) :
    0 ≤ ringAvailable ring ∧ ringAvailable ring < (ring.nr : Int) := by
  rw [ringAvailable_eq ring hh ht hN]
  have := Nat.mod_lt (ring.nr + ring.tail - ring.head) hn
  omega

/-- The copy loop with the modulo branch active advances `head` modulo the
capacity at every step. -/
theorem drainLoop_mod {α} (ev : Nat → α) (nr : Nat) (h0 : 0 < nr) :
    ∀ (n head : Nat), head < nr →
      drainLoop ev nr true n head =
        ((List.range n).map (fun i => ev ((head + i) % nr)), (head + n) % nr) := by
  intro n
  induction n with
  | zero =>
    intro head hh
    simp [drainLoop, Nat.mod_eq_of_lt hh]
  | succ n ih =>
    intro head hh
    have hh2 : (head + 1) % nr < nr := Nat.mod_lt _ h0
    have step : drainLoop ev nr true (n + 1) head
        = (ev head :: (drainLoop ev nr true n ((head + 1) % nr)).1,
           (drainLoop ev nr true n ((head + 1) % nr)).2) := by
      simp [drainLoop]
    rw [step, ih ((head + 1) % nr) hh2]
    simp only [Prod.mk.injEq]
    constructor
    · rw [List.range_succ_eq_map, List.map_cons, List.map_map]
      congr 1
      · rw [Nat.add_zero, Nat.mod_eq_of_lt hh]
      · refine List.map_congr_left (fun i _ => ?_)
        simp only [Function.comp_apply, Nat.succ_eq_add_one]
        rw [Nat.mod_add_mod]
        have harg : head + 1 + i = head + (i + 1) := by omega
        rw [harg]
    · rw [Nat.mod_add_mod]
      have harg : head + 1 + n = head + (n + 1) := by omega
      rw [harg]

/-- The copy loop with the modulo branch skipped computes the same events
and final head as the modulo version, because no wrap happens. -/
theorem drainLoop_nomod {α} (ev : Nat → α) (nr : Nat) :
    ∀ (n head : Nat), head + n ≤ nr →
      drainLoop ev nr false n head =
        ((List.range n).map (fun i => ev ((head + i) % nr)), head + n) := by
  intro n
  induction n with
  | zero =>
    intro head _
    simp [drainLoop]
  | succ n ih =>
    intro head hle
    have step : drainLoop ev nr false (n + 1) head
        = (ev head :: (drainLoop ev nr false n (head + 1)).1,
           (drainLoop ev nr false n (head + 1)).2) := by
      simp [drainLoop]
    rw [step, ih (head + 1) (by omega)]
    simp only [Prod.mk.injEq]
    constructor
    · rw [List.range_succ_eq_map, List.map_cons, List.map_map]
      congr 1
      · rw [Nat.add_zero, Nat.mod_eq_of_lt (by omega)]
      · refine List.map_congr_left (fun i _ => ?_)
        simp only [Function.comp_apply, Nat.succ_eq_add_one]
        have harg : head + 1 + i = head + (i + 1) := by omega
        rw [harg]
    · omega

/-! ### Claim C1 -/

/-- A valid, empty ring (head = tail): used to separate the fast path's
zero-completion return from its syscall fallback. -/
def exRingEmpty : AioRing Nat :=
  { nr := 8, head := 0, tail := 0, magic := AIO_RING_MAGIC
    incompat_features := 0, io_events := fun i => i }

/-- A valid ring with 2 completions available across a wrap. -/
def exRingWrap : AioRing Nat :=
  { nr := 4, head := 3, tail := 1, magic := AIO_RING_MAGIC
    incompat_features := 0, io_events := fun i => i }

/-- C1 counterexample: on a valid ring with `available == 0`, a caller with
`min_nr = 1` and a null timeout does not get zero completions back — the
code reaches the blocking `io_getevents` syscall (line 142), because the
`!available` early return at line 115 sits inside the
`available >= min_nr || zero-timeout` branch of line 114. -/
theorem c1_zero_available_counterexample :
    has_usable_ring exRingEmpty = true
    ∧ ringAvailable exRingEmpty = 0
    ∧ artemis_io_getevents exRingEmpty 1 8 none = GetEventsResult.fallback := by
  exact ⟨rfl, by decide, by decide⟩

/-- C1 (amended): on a valid well-formed ring the reader computes
`available = (tail - head) mod capacity`; when `available == 0` it returns
zero completions if `minNr ≤ 0` or the caller supplied a zero timeout, and
otherwise falls back to the kernel syscall; and whenever
`0 < available < minNr` and the caller did not supply a zero timeout it
does not drain the ring but falls back to the blocking kernel syscall. -/
theorem c1_fast_path_gate (α : Type) (ring : AioRing α) (min_nr max : Int)
    (timeout : Option Timespec)
    (hu : has_usable_ring ring = true)
    (hh : ring.head < ring.nr) (ht : ring.tail < ring.nr)
    (_hn : 0 < ring.nr) (hN : ring.nr < INT32_HALF) :
    ringAvailable ring = (((ring.nr + ring.tail - ring.head) % ring.nr : Nat) : Int)
    ∧ (ringAvailable ring = 0 → (min_nr ≤ 0 ∨ timeoutIsZero timeout = true) →
        artemis_io_getevents ring min_nr max timeout = GetEventsResult.fast 0 [] ring.head)
    ∧ (ringAvailable ring = 0 → 0 < min_nr → timeoutIsZero timeout = false →
        artemis_io_getevents ring min_nr max timeout = GetEventsResult.fallback)
    ∧ (0 < ringAvailable ring → ringAvailable ring < min_nr → timeoutIsZero timeout = false →
        artemis_io_getevents ring min_nr max timeout = GetEventsResult.fallback) := by
  refine ⟨ringAvailable_eq ring hh ht hN, ?_, ?_, ?_⟩
  · intro h0 hcond
    unfold artemis_io_getevents
    rw [hu, if_pos rfl, if_pos (by rw [h0]; exact hcond), if_pos h0]
  · intro h0 hmin htz
    unfold artemis_io_getevents
    rw [hu, if_pos rfl, if_neg (by simp [h0, htz]; omega)]
  · intro hpos hlt htz
    unfold artemis_io_getevents
    rw [hu, if_pos rfl, if_neg (by simp [htz]; omega)]

/-- Witness for `c1_fast_path_gate` at concrete rings: an empty ring with
`min_nr = 0` returns zero completions, and a ring holding 2 completions
with `min_nr = 3` and no timeout falls back. -/
theorem c1_fast_path_gate_witness :
    artemis_io_getevents exRingEmpty 0 8 none = GetEventsResult.fast 0 [] 0
    ∧ artemis_io_getevents exRingWrap 3 8 none = GetEventsResult.fallback := by
  constructor
  · exact (c1_fast_path_gate Nat exRingEmpty 0 8 none (by decide) (by decide) (by decide)
      (by decide) (by decide)).2.1 (by decide) (Or.inl (by decide))
  · exact (c1_fast_path_gate Nat exRingWrap 3 8 none (by decide) (by decide) (by decide)
      (by decide) (by decide)).2.2.2 (by decide) (by decide) (by decide)

/-! ### Claim C2 -/

/-- C2: whenever the fast path drains with `available > 0` on a valid
well-formed ring, `artemis_io_getevents` returns exactly
`min(available, max)` events, equal to the ring entries at positions
`head, head+1, ...` taken modulo the capacity, together with a published
new head equal to the old head advanced by `min(available, max)` modulo the
capacity — so the conditional-modulo increment of lines 123-130 agrees with
advancing `head` modulo the capacity on every step. -/
theorem c2_fast_drain (α : Type) (ring : AioRing α) (min_nr max : Int)
    (timeout : Option Timespec)
    (hu : has_usable_ring ring = true)
    (hh : ring.head < ring.nr) (ht : ring.tail < ring.nr)
    (hn : 0 < ring.nr) (hN : ring.nr < INT32_HALF)
    (hmax0 : 0 ≤ max) (hmaxN : max < ((INT32_HALF : Nat) : Int))
    (hav : 0 < ringAvailable ring)
    (hbranch : min_nr ≤ ringAvailable ring ∨ timeoutIsZero timeout = true) :
    artemis_io_getevents ring min_nr max timeout
      = GetEventsResult.fast ((min (ringAvailable ring).toNat max.toNat : Nat) : Int)
          ((List.range (min (ringAvailable ring).toNat max.toNat)).map
            (fun i => ring.io_events ((ring.head + i) % ring.nr)))
          ((ring.head + min (ringAvailable ring).toNat max.toNat) % ring.nr) := by
  have hb := ringAvailable_bounds ring hh ht hn hN
  have hN2 : ring.nr < 2147483648 := hN
  have hmax2 : max < 2147483648 := hmaxN
  have hmin : (if ringAvailable ring < max then ringAvailable ring else max)
      = ((min (ringAvailable ring).toNat max.toNat : Nat) : Int) := by
    split_ifs with h <;> omega
  have e1 : toUint32 ((min (ringAvailable ring).toNat max.toNat : Nat) : Int)
      = min (ringAvailable ring).toNat max.toNat :=
    toUint32_ofNat _ (by unfold UINT32_MOD; omega)
  have e2 : toInt32 (min (ringAvailable ring).toNat max.toNat)
      = ((min (ringAvailable ring).toNat max.toNat : Nat) : Int) :=
    toInt32_small _ (by unfold INT32_HALF; omega)
  have e3 : ((min (ringAvailable ring).toNat max.toNat : Nat) : Int).toNat
      = min (ringAvailable ring).toNat max.toNat := by omega
  have e4 : (ring.head + min (ringAvailable ring).toNat max.toNat) % UINT32_MOD
      = ring.head + min (ringAvailable ring).toNat max.toNat := by
    unfold UINT32_MOD
    exact Nat.mod_eq_of_lt (by omega)
  unfold artemis_io_getevents
  rw [hu, if_pos rfl, if_pos hbranch, if_neg (by omega)]
  simp only [hmin, e1, e2, e3, e4]
  rcases Nat.lt_or_ge (ring.head + min (ringAvailable ring).toNat max.toNat) ring.nr
    with hcase | hcase
  · rw [decide_eq_false (by omega :
      ¬ ring.nr ≤ ring.head + min (ringAvailable ring).toNat max.toNat)]
    rw [drainLoop_nomod ring.io_events ring.nr _ ring.head (by omega)]
    rw [Nat.mod_eq_of_lt hcase]
  · rw [decide_eq_true (hcase :
      ring.nr ≤ ring.head + min (ringAvailable ring).toNat max.toNat)]
    rw [drainLoop_mod ring.io_events ring.nr hn _ ring.head hh]

/-- Witness for `c2_fast_drain`: on a valid ring of capacity 4 with
`head = 3`, `tail = 1` (2 completions available, wrapping the ring edge),
a request with `min_nr = 1`, `max = 8` drains the entries at slots 3 and 0
and publishes head 1. -/
theorem c2_fast_drain_witness :
    artemis_io_getevents exRingWrap 1 8 none = GetEventsResult.fast 2 [3, 0] 1 := by
  rw [c2_fast_drain Nat exRingWrap 1 8 none (by decide) (by decide) (by decide)
    (by decide) (by decide) (by decide) (by decide) (by decide) (Or.inl (by decide))]
  decide

/-! ### Pool bookkeeping lemmas -/

theorem putIOCB_used (c : IoControl) (d : Iocb) : (putIOCB c d).used = c.used - 1 := rfl

theorem putIOCB_queueSize (c : IoControl) (d : Iocb) :
    (putIOCB c d).queueSize = c.queueSize := rfl

theorem getIOCB_snd_used (c : IoControl) :
    (getIOCB c).2.used = if c.used < (c.queueSize : Int) then c.used + 1 else c.used := by
  unfold getIOCB
  split_ifs <;> rfl

theorem getIOCB_snd_queueSize (c : IoControl) : (getIOCB c).2.queueSize = c.queueSize := by
  unfold getIOCB
  split_ifs <;> rfl

theorem poolStep_acquire (c : IoControl) (out : Nat) :
    poolStep (c, out) PoolOp.acquire
      = ((getIOCB c).2, if c.used < (c.queueSize : Int) then out + 1 else out) := by
  by_cases hlt : c.used < (c.queueSize : Int) <;>
    simp [poolStep, getIOCB, hlt]

/-- A successful acquire followed by any release restores `used`: `getIOCB`
increments it under the `used < queueSize` guard and `putIOCB` decrements
it unconditionally. -/
theorem acquire_then_release_used (c : IoControl) (d0 d1 : Iocb) (c2 : IoControl)
    (hacq : getIOCB c = (some d0, c2)) : (putIOCB c2 d1).used = c.used := by
  unfold getIOCB at hacq
  by_cases hlt : c.used < (c.queueSize : Int)
  · rw [if_pos hlt] at hacq
    have h2 : c2.used = c.used + 1 := by
      have h := congrArg (fun p => p.2.used) hacq
      simpa using h.symm
    rw [putIOCB_used, h2]
    omega
  · rw [if_neg hlt] at hacq
    simp at hacq

/-- Core invariant of pool traces: along any well-formed trace, `used`
tracks the number of outstanding descriptors and that number never exceeds
the (unchanged) capacity. -/
theorem runPool_invariant (ops : List PoolOp) :
    ∀ (c : IoControl) (out : Nat), c.used = (out : Int) → out ≤ c.queueSize →
      wfTrace c out ops = true →
      (runPool c out ops).1.used = ((runPool c out ops).2 : Int)
      ∧ (runPool c out ops).2 ≤ (runPool c out ops).1.queueSize
      ∧ (runPool c out ops).1.queueSize = c.queueSize := by
  induction ops with
  | nil =>
    intro c out hu hle _
    exact ⟨hu, hle, rfl⟩
  | cons op rest ih =>
    intro c out hu hle hwf
    have hrun : runPool c out (op :: rest)
        = runPool (poolStep (c, out) op).1 (poolStep (c, out) op).2 rest := rfl
    rw [hrun]
    rcases op with _ | d
    · simp only [wfTrace, Bool.true_and] at hwf
      rw [poolStep_acquire] at hwf ⊢
      by_cases hlt : c.used < (c.queueSize : Int)
      · rw [if_pos hlt] at hwf ⊢
        have h2 := ih (getIOCB c).2 (out + 1)
          (by rw [getIOCB_snd_used, if_pos hlt]; omega)
          (by rw [getIOCB_snd_queueSize]; omega)
          hwf
        exact ⟨h2.1, h2.2.1, by rw [h2.2.2, getIOCB_snd_queueSize]⟩
      · rw [if_neg hlt] at hwf ⊢
        have h2 := ih (getIOCB c).2 out
          (by rw [getIOCB_snd_used, if_neg hlt]; exact hu)
          (by rw [getIOCB_snd_queueSize]; exact hle)
          hwf
        exact ⟨h2.1, h2.2.1, by rw [h2.2.2, getIOCB_snd_queueSize]⟩
    · simp only [wfTrace, Bool.and_eq_true, decide_eq_true_eq] at hwf
      obtain ⟨hpos, hwf2⟩ := hwf
      have hstep : poolStep (c, out) (PoolOp.release d) = (putIOCB c d, out - 1) := rfl
      rw [hstep]
      have h2 := ih (putIOCB c d) (out - 1)
        (by rw [putIOCB_used]; omega)
        (by rw [putIOCB_queueSize]; omega)
        hwf2
      exact ⟨h2.1, h2.2.1, by rw [h2.2.2, putIOCB_queueSize]⟩

/-! ### Claim C3 -/

/-- C3: along every well-formed sequence of acquires and releases (each
release returning an outstanding descriptor, the discipline of every
`putIOCB` call site), the `used` counter stays within `[0, N]`; and an
acquire performed when `used == N` returns null and leaves the pool
untouched — `getIOCB` never waits, it just reports unavailability. -/
theorem c3_pool_counter_invariant :
    (∀ (c : IoControl) (out : Nat) (ops : List PoolOp),
      c.used = (out : Int) → out ≤ c.queueSize → wfTrace c out ops = true →
      0 ≤ (runPool c out ops).1.used
      ∧ (runPool c out ops).1.used ≤ (c.queueSize : Int))
    ∧ (∀ c : IoControl, c.used = (c.queueSize : Int) → getIOCB c = (none, c)) := by
  constructor
  · intro c out ops hu hle hwf
    obtain ⟨h1, h2, h3⟩ := runPool_invariant ops c out hu hle hwf
    constructor <;> omega
  · intro c hu
    unfold getIOCB
    rw [if_neg (by omega)]

/-- Fresh pool of capacity 2 with two pooled descriptors. -/
def exPool : IoControl :=
  { iocb := [{ aio_fildes := 10, data := UserData.null },
             { aio_fildes := 11, data := UserData.null }]
    queueSize := 2, iocbPut := 0, iocbGet := 0, used := 0 }

/-- The same pool with every descriptor outstanding. -/
def exPoolFull : IoControl :=
  { exPool with used := 2 }

/-- Witness for `c3_pool_counter_invariant`: a trace with two successful
acquires, one acquire hitting the full pool, and one release keeps `used`
within `[0, 2]`; and an acquire on the full pool returns null without
changing it. -/
theorem c3_pool_counter_invariant_witness :
    (0 ≤ (runPool exPool 0 [PoolOp.acquire, PoolOp.acquire, PoolOp.acquire,
        PoolOp.release { aio_fildes := 10, data := UserData.null }]).1.used
      ∧ (runPool exPool 0 [PoolOp.acquire, PoolOp.acquire, PoolOp.acquire,
        PoolOp.release { aio_fildes := 10, data := UserData.null }]).1.used
          ≤ (exPool.queueSize : Int))
    ∧ getIOCB exPoolFull = (none, exPoolFull) := by
  constructor
  · exact c3_pool_counter_invariant.1 exPool 0 [PoolOp.acquire, PoolOp.acquire,
      PoolOp.acquire, PoolOp.release { aio_fildes := 10, data := UserData.null }]
      (by decide) (by decide) (by decide)
  · exact c3_pool_counter_invariant.2 exPoolFull (by decide)

/-! ### Claim C8 -/

/-- C8: for every descriptor returned by a successful `getIOCB`, one
`putIOCB` of that descriptor restores the pool's `used` counter to its
pre-acquire value. -/
theorem c8_acquire_release_roundtrip (c : IoControl) (d : Iocb) (c2 : IoControl)
    (hacq : getIOCB c = (some d, c2)) : (putIOCB c2 d).used = c.used :=
  acquire_then_release_used c d d c2 hacq

/-- Witness for `c8_acquire_release_roundtrip` on the concrete capacity-2
pool: acquire then release brings `used` back to 0. -/
theorem c8_acquire_release_roundtrip_witness :
    (putIOCB (getIOCB exPool).2 { aio_fildes := 10, data := UserData.null }).used
      = exPool.used :=
  c8_acquire_release_roundtrip exPool { aio_fildes := 10, data := UserData.null }
    (getIOCB exPool).2 (by decide)

/-! ### Claim C4 -/

/-- C4: when `io_submit` rejects a submission (negative result), `submit`
deletes the completion-handle reference stored in the descriptor's
user-data slot exactly when that slot holds a handle (present, not null,
not the `(void *) -1` sentinel), returns the descriptor to the pool so
that `used` equals its value before the acquire that produced the
descriptor, throws an `IOException` carrying the kernel's error code, and
reports failure — neither the descriptor slot nor the handle reference is
leaked. -/
theorem c4_submit_rejection_undo (c : IoControl) (d : Iocb) (c2 : IoControl)
    (ud : UserData) (res : Int)
    (hacq : getIOCB c = (some d, c2)) (hres : res < 0) :
    (submit c2 { d with data := ud } res).control.used = c.used
    ∧ (submit c2 { d with data := ud } res).deletedRef
        = (match ud with
           | UserData.handle h => some (UserData.handle h)
           | _ => none)
    ∧ (submit c2 { d with data := ud } res).thrownErrno = some (-res)
    ∧ (submit c2 { d with data := ud } res).ret = 0 := by
  have hsub : submit c2 { d with data := ud } res
      = { ret := 0
        , deletedRef :=
            if ud ≠ UserData.null ∧ ud ≠ UserData.sentinel then some ud else none
        , control := putIOCB c2 { d with data := ud }
        , thrownErrno := some (-res)
        , calls := [] } := by
    unfold submit
    rw [if_pos hres]
  rw [hsub]
  refine ⟨acquire_then_release_used c d _ c2 hacq, ?_, rfl, rfl⟩
  rcases ud with _ | _ | h <;> simp

/-- Witness for `c4_submit_rejection_undo`: a rejected submission (kernel
result −11) on a descriptor holding handle 7 deletes that reference,
restores `used` to 0, and throws errno 11. -/
theorem c4_submit_rejection_undo_witness :
    (submit (getIOCB exPool).2 { aio_fildes := 10, data := UserData.handle 7 }
        (-11)).control.used = exPool.used
    ∧ (submit (getIOCB exPool).2 { aio_fildes := 10, data := UserData.handle 7 }
        (-11)).deletedRef = some (UserData.handle 7)
    ∧ (submit (getIOCB exPool).2 { aio_fildes := 10, data := UserData.handle 7 }
        (-11)).thrownErrno = some 11
    ∧ (submit (getIOCB exPool).2 { aio_fildes := 10, data := UserData.handle 7 }
        (-11)).ret = 0 :=
  c4_submit_rejection_undo exPool { aio_fildes := 10, data := UserData.null }
    (getIOCB exPool).2 (UserData.handle 7) (-11) (by decide) (by decide)

/-! ### Claim C5 -/

/-- C5: for a harvested non-sentinel event whose user-data slot holds a
completion handle, the `blockedPoll` dispatch invokes `onError` exactly
once when the result is negative and never otherwise (hence at most once),
followed by the `done` notification exactly once either way; within a
batch each non-sentinel event contributes exactly its own dispatch calls;
and a failed submission invokes neither method on the handle. -/
theorem c5_completion_dispatch :
    (∀ (ev : IoEvent) (h : Nat), ev.obj.data = UserData.handle h →
      eventCalls ev
        = (if ev.res < 0
           then [HandleCall.onError (UserData.handle h) (-ev.res),
                 HandleCall.done (UserData.handle h)]
           else [HandleCall.done (UserData.handle h)])
      ∧ (eventCalls ev).countP HandleCall.isOnError = (if ev.res < 0 then 1 else 0)
      ∧ (eventCalls ev).countP HandleCall.isDone = 1)
    ∧ (∀ (dumbFd : Int) (u : Bool) (ev : IoEvent) (rest : List IoEvent) (lf : Int),
        ev.obj.aio_fildes ≠ dumbFd →
        (processBatch dumbFd u (ev :: rest) lf).calls
          = eventCalls ev
            ++ (processBatch dumbFd u rest
                (if (u && lf != ev.obj.aio_fildes) = true then ev.obj.aio_fildes
                 else lf)).calls)
    ∧ (∀ (c : IoControl) (iocb : Iocb) (res : Int), res < 0 →
        (submit c iocb res).calls = []) := by
  refine ⟨?_, ?_, ?_⟩
  · intro ev h hdata
    have hne : UserData.handle h ≠ UserData.null := by simp
    by_cases hneg : ev.res < 0
    · have hev : eventCalls ev
          = [HandleCall.onError (UserData.handle h) (-ev.res),
             HandleCall.done (UserData.handle h)] := by
        simp only [eventCalls]
        rw [hdata, if_pos ⟨hneg, hne⟩, if_pos hne]
        rfl
      refine ⟨by rw [hev, if_pos hneg], ?_, ?_⟩
      · rw [hev, if_pos hneg]
        simp [List.countP_cons, HandleCall.isOnError, HandleCall.isDone]
      · rw [hev]
        simp [List.countP_cons, HandleCall.isOnError, HandleCall.isDone]
    · have hev : eventCalls ev = [HandleCall.done (UserData.handle h)] := by
        simp only [eventCalls]
        rw [hdata, if_neg (by tauto), if_pos hne]
        rfl
      refine ⟨by rw [hev, if_neg hneg], ?_, ?_⟩
      · rw [hev, if_neg hneg]
        simp [List.countP_cons, HandleCall.isOnError, HandleCall.isDone]
      · rw [hev]
        simp [List.countP_cons, HandleCall.isOnError, HandleCall.isDone]
  · intro dumbFd u ev rest lf hfd
    simp only [processBatch]
    rw [if_neg hfd]
  · intro c iocb res hres
    unfold submit
    rw [if_pos hres]

/-- Witness for `c5_completion_dispatch`: an event carrying handle 3 and
result −5 produces exactly one `onError` (code 5) followed by one `done`;
a rejected submission produces no handle calls. -/
theorem c5_completion_dispatch_witness :
    eventCalls { obj := { aio_fildes := 7, data := UserData.handle 3 }, res := -5 }
      = [HandleCall.onError (UserData.handle 3) 5, HandleCall.done (UserData.handle 3)]
    ∧ (submit exPool { aio_fildes := 7, data := UserData.handle 3 } (-11)).calls = [] := by
  constructor
  · exact ((c5_completion_dispatch.1
      { obj := { aio_fildes := 7, data := UserData.handle 3 }, res := -5 } 3 rfl).1).trans
      (by decide)
  · exact c5_completion_dispatch.2.2 exPool
      { aio_fildes := 7, data := UserData.handle 3 } (-11) (by decide)

/-! ### Claim C6 -/

/-- C6: when the continuous poll loop harvests a completion whose target
file descriptor equals the dumb-write descriptor, it releases that
descriptor back to the pool and exits the loop, invoking no handle method
for the sentinel and processing no later event of the batch; at the loop
level, a successful harvest whose first event is the sentinel terminates
`blockedPoll` with no calls and no error. -/
theorem c6_sentinel_exit (dumbFd : Int) (u : Bool) (ev : IoEvent)
    (rest : List IoEvent) (lf : Int) (hfd : ev.obj.aio_fildes = dumbFd) :
    processBatch dumbFd u (ev :: rest) lf
      = { calls := [], released := [ev.obj], flushed := []
        , running := false, lastFile := lf }
    ∧ ∀ sched : List (Int × List IoEvent),
        blockedPollLoop dumbFd u ((1, ev :: rest) :: sched)
          = { calls := [], released := [ev.obj], thrownErrno := none
            , finished := true } := by
  have hbatch : ∀ l lf2, processBatch dumbFd u (ev :: l) lf2
      = { calls := [], released := [ev.obj], flushed := []
        , running := false, lastFile := lf2 } := by
    intro l lf2
    unfold processBatch
    rw [if_pos hfd]
  refine ⟨hbatch rest lf, ?_⟩
  intro sched
  simp only [blockedPollLoop]
  rw [if_neg (by decide), if_neg (by decide)]
  simp [hbatch]

/-- Witness for `c6_sentinel_exit`: the dumb-write completion (descriptor
42) is released, the loop exits, and the following event of the batch is
never dispatched. -/
theorem c6_sentinel_exit_witness :
    processBatch 42 true
        [{ obj := { aio_fildes := 42, data := UserData.sentinel }, res := 0 },
         { obj := { aio_fildes := 7, data := UserData.handle 1 }, res := 9 }] (-1)
      = { calls := [], released := [{ aio_fildes := 42, data := UserData.sentinel }]
        , flushed := [], running := false, lastFile := -1 }
    ∧ blockedPollLoop 42 true
        [(1, [{ obj := { aio_fildes := 42, data := UserData.sentinel }, res := 0 },
              { obj := { aio_fildes := 7, data := UserData.handle 1 }, res := 9 }])]
      = { calls := [], released := [{ aio_fildes := 42, data := UserData.sentinel }]
        , thrownErrno := none, finished := true } := by
  have h := c6_sentinel_exit 42 true
    { obj := { aio_fildes := 42, data := UserData.sentinel }, res := 0 }
    [{ obj := { aio_fildes := 7, data := UserData.handle 1 }, res := 9 }] (-1) rfl
  exact ⟨h.1, h.2 []⟩

/-! ### Claim C7 -/

/-- C7 counterexample: the bounded poll surfaces the interrupted result to
its caller — when `artemis_io_getevents` yields `-EINTR`, `poll` returns
`retVal = -EINTR` verbatim (line 833/865), contradicting the claim that no
caller of the harvesting entry points ever observes it. -/
theorem c7_eintr_surfaced_counterexample :
    (poll (-EINTR, [])).retVal = -EINTR := rfl

/-- C7 (amended): the continuous poll loop recovers from the interrupted
result locally — a `-EINTR` harvest is retried with no call, no release
and no error, and `blockedPoll` never throws `EINTR` to its caller — but
the bounded `poll` returns the raw harvest result, so its caller can
observe `-EINTR`. -/
theorem c7_eintr_retry :
    (∀ (dumbFd : Int) (u : Bool) (evs : List IoEvent)
        (rest : List (Int × List IoEvent)),
      blockedPollLoop dumbFd u ((-EINTR, evs) :: rest) = blockedPollLoop dumbFd u rest)
    ∧ (∀ (dumbFd : Int) (u : Bool) (trace : List (Int × List IoEvent)),
        (blockedPollLoop dumbFd u trace).thrownErrno ≠ some EINTR)
    ∧ (∀ harvest : Int × List IoEvent, (poll harvest).retVal = harvest.1) := by
  refine ⟨?_, ?_, ?_⟩
  · intro dumbFd u evs rest
    simp [blockedPollLoop]
  · intro dumbFd u trace
    induction trace with
    | nil => simp [blockedPollLoop]
    | cons hd rest ih =>
      obtain ⟨res, evs⟩ := hd
      simp only [blockedPollLoop]
      by_cases h1 : res = -EINTR
      · rw [if_pos h1]
        exact ih
      · rw [if_neg h1]
        by_cases h2 : res < 0
        · rw [if_pos h2]
          intro hcontra
          simp only [Option.some.injEq] at hcontra
          exact h1 (by unfold EINTR at *; omega)
        · rw [if_neg h2]
          by_cases h3 : (processBatch dumbFd u (evs.take res.toNat) (-1)).running = true
          · rw [if_pos h3]
            simpa using ih
          · rw [if_neg h3]
            simp
  · intro harvest
    rfl

/-- Witness for `c7_eintr_retry` at concrete schedules: an interrupted
harvest is skipped, an `EIO`-failed loop never reports `EINTR`, and `poll`
hands `-EINTR` straight back. -/
theorem c7_eintr_retry_witness :
    blockedPollLoop 42 false [(-EINTR, []), (5, [])] = blockedPollLoop 42 false [(5, [])]
    ∧ (blockedPollLoop 42 false [(-5, [])]).thrownErrno ≠ some EINTR
    ∧ (poll (-EINTR, [])).retVal = -EINTR :=
  ⟨c7_eintr_retry.1 42 false [] [(5, [])],
   c7_eintr_retry.2.1 42 false [(-5, [])],
   c7_eintr_retry.2.2 (-EINTR, [])⟩

/-! ### Bounded-poll loop lemmas -/

theorem pollEventsLoop_released (evs : List IoEvent) :
    ∀ i, (pollEventsLoop evs i).2.2 = evs.map (fun e => e.obj) := by
  induction evs with
  | nil => intro i; rfl
  | cons ev rest ih =>
    intro i
    simp only [pollEventsLoop, List.map_cons]
    rw [ih (i + 1)]

theorem pollEventsLoop_writes_length (evs : List IoEvent) :
    ∀ i, (pollEventsLoop evs i).1.length
      = evs.countP (fun e =>
          decide (e.obj.data ≠ UserData.null ∧ e.obj.data ≠ UserData.sentinel)) := by
  induction evs with
  | nil => intro i; rfl
  | cons ev rest ih =>
    intro i
    simp only [pollEventsLoop, List.countP_cons]
    by_cases hD : ev.obj.data ≠ UserData.null ∧ ev.obj.data ≠ UserData.sentinel
    · rw [if_pos hD]
      simp only [List.singleton_append, List.length_cons, ih (i + 1)]
      rw [if_pos (decide_eq_true hD)]
    · rw [if_neg hD]
      simp only [List.nil_append, ih (i + 1)]
      simp [hD]

theorem pollEventsLoop_writes_mem (evs : List IoEvent) :
    ∀ i, ∀ w ∈ (pollEventsLoop evs i).1,
      w.2 ≠ UserData.null ∧ w.2 ≠ UserData.sentinel := by
  induction evs with
  | nil => intro i w hw; simp [pollEventsLoop] at hw
  | cons ev rest ih =>
    intro i w hw
    simp only [pollEventsLoop] at hw
    by_cases hD : ev.obj.data ≠ UserData.null ∧ ev.obj.data ≠ UserData.sentinel
    · rw [if_pos hD] at hw
      simp only [List.singleton_append, List.mem_cons] at hw
      rcases hw with rfl | hw
      · exact hD
      · exact ih (i + 1) w hw
    · rw [if_neg hD] at hw
      simp only [List.nil_append] at hw
      exact ih (i + 1) w hw

theorem pollEventsLoop_calls_mem (evs : List IoEvent) :
    ∀ i, ∀ cl ∈ (pollEventsLoop evs i).2.1, ∃ t code,
      cl = HandleCall.onError t code
      ∧ t ≠ UserData.null ∧ t ≠ UserData.sentinel := by
  induction evs with
  | nil => intro i cl hcl; simp [pollEventsLoop] at hcl
  | cons ev rest ih =>
    intro i cl hcl
    simp only [pollEventsLoop] at hcl
    by_cases hE : ev.res < 0 ∧ ev.obj.data ≠ UserData.null ∧ ev.obj.data ≠ UserData.sentinel
    · rw [if_pos hE] at hcl
      simp only [List.singleton_append, List.mem_cons] at hcl
      rcases hcl with rfl | hcl
      · exact ⟨ev.obj.data, -ev.res, rfl, hE.2⟩
      · exact ih (i + 1) cl hcl
    · rw [if_neg hE] at hcl
      simp only [List.nil_append] at hcl
      exact ih (i + 1) cl hcl

/-! ### Claim C9 -/

/-- C9: a bounded poll over a successful drain of `n` events returns
exactly `n` — counting also the events whose user-data slot is null or
holds the shutdown sentinel. Every drained descriptor is released back to
the pool; yet only events whose slot holds a real handle produce a write
into the caller's `callbacks` array or an `onError` invocation (and `poll`
never sends `done` at all), so the returned count can exceed the number of
callbacks delivered. -/
theorem c9_poll_count (evs : List IoEvent) :
    (poll ((evs.length : Int), evs)).retVal = (evs.length : Int)
    ∧ (poll ((evs.length : Int), evs)).released = evs.map (fun e => e.obj)
    ∧ (poll ((evs.length : Int), evs)).writes.length
        = evs.countP (fun e =>
            decide (e.obj.data ≠ UserData.null ∧ e.obj.data ≠ UserData.sentinel))
    ∧ (poll ((evs.length : Int), evs)).writes.length ≤ evs.length
    ∧ (∀ w ∈ (poll ((evs.length : Int), evs)).writes,
        w.2 ≠ UserData.null ∧ w.2 ≠ UserData.sentinel)
    ∧ (poll ((evs.length : Int), evs)).calls.countP HandleCall.isDone = 0
    ∧ (∀ cl ∈ (poll ((evs.length : Int), evs)).calls, ∃ t code,
        cl = HandleCall.onError t code
        ∧ t ≠ UserData.null ∧ t ≠ UserData.sentinel) := by
  have hp : poll ((evs.length : Int), evs)
      = { retVal := (evs.length : Int)
        , writes := (pollEventsLoop evs 0).1
        , calls := (pollEventsLoop evs 0).2.1
        , released := (pollEventsLoop evs 0).2.2 } := by
    have htake : ((evs.length : Int)).toNat = evs.length := by omega
    simp only [poll]
    rw [htake, List.take_length]
  rw [hp]
  refine ⟨rfl, pollEventsLoop_released evs 0, pollEventsLoop_writes_length evs 0, ?_, ?_, ?_, ?_⟩
  · rw [pollEventsLoop_writes_length evs 0]
    exact List.countP_le_length _
  · exact pollEventsLoop_writes_mem evs 0
  · rw [List.countP_eq_zero]
    intro cl hcl
    obtain ⟨t, code, rfl, -, -⟩ := pollEventsLoop_calls_mem evs 0 cl hcl
    simp [HandleCall.isDone]
  · exact pollEventsLoop_calls_mem evs 0

/-- Two drained events: one with a real handle and a negative result, one
carrying the shutdown sentinel. -/
def exEvents : List IoEvent :=
  [{ obj := { aio_fildes := 7, data := UserData.handle 1 }, res := -5 },
   { obj := { aio_fildes := 8, data := UserData.sentinel }, res := 0 }]

/-- Witness for `c9_poll_count`: draining `exEvents` returns count 2 while
writing only 1 callback, and both descriptors are released. -/
theorem c9_poll_count_witness :
    (poll (2, exEvents)).retVal = 2
    ∧ (poll (2, exEvents)).released
        = [{ aio_fildes := 7, data := UserData.handle 1 },
           { aio_fildes := 8, data := UserData.sentinel }]
    ∧ (poll (2, exEvents)).writes.length = 1 := by
  have h := c9_poll_count exEvents
  exact ⟨h.1, h.2.1, h.2.2.1⟩

/-! ### Claim C10 -/

/-- C10: every successful `newAlignedBuffer` call — size a multiple of the
alignment and the `posix_memalign` allocation succeeding — hands the
caller a buffer of exactly `size` bytes that is fully zero-filled by the
`memset` at line 886. -/
theorem c10_aligned_buffer_zeroed (size alignment : Nat) (raw buf : List Nat)
    (hmul : size % alignment = 0) (_hpos : 0 < size) (hlen : raw.length = size)
    (hres : newAlignedBuffer size alignment (some raw) = some buf) :
    buf.length = size ∧ ∀ x ∈ buf, x = 0 := by
  unfold newAlignedBuffer at hres
  rw [if_neg (by omega)] at hres
  injection hres with hres
  subst hres
  unfold memsetBytes
  have hdrop : raw.drop size = [] := by
    rw [← hlen]
    exact List.drop_length raw
  rw [hdrop, List.append_nil]
  refine ⟨List.length_replicate _ _, ?_⟩
  intro x hx
  exact List.eq_of_mem_replicate hx

/-- Witness for `c10_aligned_buffer_zeroed`: size 4, alignment 2, raw
allocation `[1, 2, 3, 4]` — the returned buffer is `[0, 0, 0, 0]`. -/
theorem c10_aligned_buffer_zeroed_witness :
    ([0, 0, 0, 0] : List Nat).length = 4 ∧ ∀ x ∈ ([0, 0, 0, 0] : List Nat), x = 0 :=
  c10_aligned_buffer_zeroed 4 2 [1, 2, 3, 4] [0, 0, 0, 0]
    (by decide) (by decide) (by decide) (by decide)

end ArtemisNative
